import Mathlib

/-!
Verification of the flavor-database application (two near-identical variants,
`flavor_analysis5.py` and `flavor_analysis7.py`).  The Record Store is a table
of (ingredient, compound, descriptor) string triples held as a list of rows;
pandas `drop_duplicates()` / `Series.unique()` keep the first occurrence, which
`uniqueFirst` models.  Cells read from a spreadsheet or CSV may be missing
(`Option String`); the pandas call `astype(str)` followed by the replacement
of the string "nan" with the empty string normalizes a missing cell
(and the literal string "nan") to the empty string.
-/

namespace FlavorApp

/-- One Flavor Record: the three string columns of the table
(`食材`, `风味物质及英文名`, `风味描述`). -/
structure FlavorRecord where
  ingredient : String
  compound : String
  descriptor : String
deriving DecidableEq, Repr

/-- Worker for keep-first deduplication: `seen` holds the values already
emitted; a value already seen is skipped, the rest are kept in order. -/
def uniqueFirstAux {α : Type} [DecidableEq α] (seen : List α) :
    List α → List α
  | [] => []
  | x :: xs =>
    if x ∈ seen then uniqueFirstAux seen xs
    else x :: uniqueFirstAux (x :: seen) xs

/-- Keep-first deduplication, as pandas `drop_duplicates()` (on rows) and
`Series.unique()` (on column values) behave: the first occurrence of each
value is kept, in order. -/
def uniqueFirst {α : Type} [DecidableEq α] (l : List α) : List α :=
  uniqueFirstAux [] l

theorem mem_uniqueFirstAux {α : Type} [DecidableEq α] (seen l : List α)
    (a : α) : a ∈ uniqueFirstAux seen l ↔ a ∈ l ∧ a ∉ seen := by
  induction l generalizing seen with
  | nil => simp [uniqueFirstAux]
  | cons x xs ih =>
    simp only [uniqueFirstAux]
    by_cases hx : x ∈ seen
    · rw [if_pos hx, ih]
      simp only [List.mem_cons]
      constructor
      · rintro ⟨h1, h2⟩
        exact ⟨Or.inr h1, h2⟩
      · rintro ⟨rfl | h1, h2⟩
        · exact absurd hx h2
        · exact ⟨h1, h2⟩
    · rw [if_neg hx]
      simp only [List.mem_cons, ih]
      constructor
      · rintro (rfl | ⟨h1, h2⟩)
        · exact ⟨Or.inl rfl, hx⟩
        · exact ⟨Or.inr h1, fun hs => h2 (Or.inr hs)⟩
      · rintro ⟨rfl | h1, h2⟩
        · exact Or.inl rfl
        · by_cases hax : a = x
          · exact Or.inl hax
          · refine Or.inr ⟨h1, fun hs => ?_⟩
            rcases hs with rfl | hs'
            · exact hax rfl
            · exact h2 hs'

theorem nodup_uniqueFirstAux {α : Type} [DecidableEq α] (seen l : List α) :
    (uniqueFirstAux seen l).Nodup := by
  induction l generalizing seen with
  | nil => simp [uniqueFirstAux]
  | cons x xs ih =>
    simp only [uniqueFirstAux]
    split
    · exact ih _
    · refine List.nodup_cons.2 ⟨fun hmem => ?_, ih _⟩
      rw [mem_uniqueFirstAux] at hmem
      exact hmem.2 (List.mem_cons_self x seen)

theorem uniqueFirstAux_eq_self {α : Type} [DecidableEq α] (seen l : List α)
    (h : l.Nodup) (hdisj : ∀ x ∈ l, x ∉ seen) :
    uniqueFirstAux seen l = l := by
  induction l generalizing seen with
  | nil => rfl
  | cons x xs ih =>
    have hx : x ∉ seen := hdisj x (List.mem_cons_self _ _)
    simp only [uniqueFirstAux, if_neg hx]
    congr 1
    apply ih _ (List.nodup_cons.1 h).2
    intro y hy hys
    rcases List.mem_cons.1 hys with rfl | hys'
    · exact (List.nodup_cons.1 h).1 hy
    · exact hdisj y (List.mem_cons_of_mem _ hy) hys'

theorem uniqueFirstAux_eq_nil {α : Type} [DecidableEq α] (seen l : List α)
    (h : ∀ x ∈ l, x ∈ seen) : uniqueFirstAux seen l = [] := by
  induction l with
  | nil => rfl
  | cons x xs ih =>
    simp only [uniqueFirstAux, if_pos (h x (List.mem_cons_self _ _))]
    exact ih fun y hy => h y (List.mem_cons_of_mem _ hy)

theorem uniqueFirstAux_append {α : Type} [DecidableEq α]
    (seen l₁ l₂ : List α) (h : ∀ x ∈ l₂, x ∈ seen ∨ x ∈ l₁) :
    uniqueFirstAux seen (l₁ ++ l₂) = uniqueFirstAux seen l₁ := by
  induction l₁ generalizing seen with
  | nil =>
    simp only [List.nil_append, uniqueFirstAux]
    apply uniqueFirstAux_eq_nil
    intro x hx
    rcases h x hx with hs | hl
    · exact hs
    · exact absurd hl (List.not_mem_nil x)
  | cons x xs ih =>
    simp only [List.cons_append, uniqueFirstAux]
    by_cases hx : x ∈ seen
    · rw [if_pos hx, if_pos hx]
      apply ih
      intro y hy
      rcases h y hy with hs | hl
      · exact Or.inl hs
      · rcases List.mem_cons.1 hl with rfl | hxs
        · exact Or.inl hx
        · exact Or.inr hxs
    · rw [if_neg hx, if_neg hx]
      congr 1
      apply ih
      intro y hy
      rcases h y hy with hs | hl
      · exact Or.inl (List.mem_cons_of_mem _ hs)
      · rcases List.mem_cons.1 hl with rfl | hxs
        · exact Or.inl (List.mem_cons_self _ _)
        · exact Or.inr hxs

theorem mem_uniqueFirst {α : Type} [DecidableEq α] (l : List α) (a : α) :
    a ∈ uniqueFirst l ↔ a ∈ l := by
  rw [uniqueFirst, mem_uniqueFirstAux]
  simp

theorem nodup_uniqueFirst {α : Type} [DecidableEq α] (l : List α) :
    (uniqueFirst l).Nodup :=
  nodup_uniqueFirstAux [] l

theorem uniqueFirst_eq_self {α : Type} [DecidableEq α] {l : List α}
    (h : l.Nodup) : uniqueFirst l = l :=
  uniqueFirstAux_eq_self [] l h (by simp)

theorem uniqueFirst_append_of_subset {α : Type} [DecidableEq α]
    (l₁ : List α) (l₂ : List α) (h : ∀ x ∈ l₂, x ∈ l₁) :
    uniqueFirst (l₁ ++ l₂) = uniqueFirst l₁ :=
  uniqueFirstAux_append [] l₁ l₂ fun x hx => Or.inr (h x hx)

/-- A cell read back from a spreadsheet or CSV: `none` is a missing value
(pandas `NaN`).  `astype(str)` turns `NaN` into the string "nan" and
the subsequent replace call then turns it (and any cell whose value is the
literal string "nan") into the empty string. -/
def normalizeCell : Option String → String
  | none => ""
  | some s => if s = "nan" then "" else s

/-- Serialization of one field: `to_csv` writes an empty-string cell as an empty field, which reads back
as a missing value; every other string is written verbatim. -/
def serializeField (s : String) : Option String :=
  if s = "" then none else some s

/-- One row of the backing CSV file, as written by `save_db`. -/
def serializeRecord (r : FlavorRecord) : List (Option String) :=
  [serializeField r.ingredient, serializeField r.compound,
    serializeField r.descriptor]

/-- Reading one row of the backing file back into a Flavor Record, with the
normalization of `load_db` (string cast, then "nan" becomes ""). -/
def parseRow (row : List (Option String)) : FlavorRecord :=
  ⟨normalizeCell (row.getD 0 none), normalizeCell (row.getD 1 none),
    normalizeCell (row.getD 2 none)⟩

/-- The backing file: `none` when absent, otherwise the rows it holds.
`save_db` (both variants) writes the table only when it is NON-empty
(the guard requires the table to exist and to be non-empty);
an empty table leaves whatever file was there before. -/
def saveDb (store : List FlavorRecord)
    (file : Option (List (List (Option String)))) :
    Option (List (List (Option String))) :=
  if store = [] then file else some (store.map serializeRecord)

/-- Model of `load_db`: a missing backing file yields the empty table; otherwise each
row is read back and normalized. -/
def loadDb (file : Option (List (List (Option String)))) :
    List FlavorRecord :=
  match file with
  | none => []
  | some rows => rows.map parseRow

/-- An uploaded spreadsheet once read: its column count and its rows of
possibly-missing cells.  `none` at the call site models `pd.read_excel`
raising (the `except` branch of `load_data_from_excel`). -/
structure RawTable where
  ncols : Nat
  rows : List (List (Option String))
deriving DecidableEq, Repr

/-- The first three cells of an imported row, normalized
(the first-three-columns slice, string cast, then "nan" becomes ""). -/
def normalizeRow (row : List (Option String)) : FlavorRecord :=
  ⟨normalizeCell (row.getD 0 none), normalizeCell (row.getD 1 none),
    normalizeCell (row.getD 2 none)⟩

/-- Outcome reported by `load_data_from_excel`. -/
inductive ImportMsg where
  | imported (n : Nat)
  | formatError
  | importFailed
deriving DecidableEq, Repr

/-- Model of `load_data_from_excel` (identical table semantics in both variants):
on a successful read with at least 3 columns, keep the first 3 columns,
normalize, drop rows with an empty ingredient, concatenate onto the store
and deduplicate keep-first; otherwise report an error and leave the store
untouched. -/
def load_data_from_excel (store : List FlavorRecord) (file : Option RawTable) :
    List FlavorRecord × ImportMsg :=
  match file with
  | none => (store, ImportMsg.importFailed)
  | some t =>
    if 3 ≤ t.ncols then
      let rows := (t.rows.map normalizeRow).filter
        (fun r => r.ingredient ≠ "")
      (uniqueFirst (store ++ rows), ImportMsg.imported rows.length)
    else (store, ImportMsg.formatError)

/-- Model of `clear_db`: the table is reset to empty. -/
def clear_db : List FlavorRecord := []

/-- What a `smart_add` call surfaces to the user.  `silent` is the
`else: return` branch of `flavor_analysis7.py`, which shows no message. -/
inductive SmartOutcome where
  | added
  | inferred
  | cannotInfer
  | missingFields
  | silent
deriving DecidableEq, Repr

/-- Lookup of the distinct compounds already recorded against descriptor
`desc`, in first-seen order (the rows matching the descriptor, compound
column, pandas unique). -/
def matchedComps (store : List FlavorRecord) (desc : String) : List String :=
  uniqueFirst ((store.filter (fun r => r.descriptor = desc)).map
    (fun r => r.compound))

/-- Lookup of the distinct descriptors already recorded against compound
`m` (the rows matching the compound, descriptor column, pandas unique). -/
def descsOf (store : List FlavorRecord) (m : String) : List String :=
  uniqueFirst ((store.filter (fun r => r.compound = m)).map
    (fun r => r.descriptor))

/-- The rows built by the inference branch of `smart_add`: one row
(ing, m, r) for every matched compound `m` and every descriptor `r` of
`m`, in loop order. -/
def inferredRows (store : List FlavorRecord) (ing desc : String) :
    List FlavorRecord :=
  (matchedComps store desc).flatMap (fun m =>
    (descsOf store m).map (fun r => ⟨ing, m, r⟩))

/-- Python `str.isspace` characters stripped by `str.strip()` (space, tab,
newline, carriage return, vertical tab, form feed). -/
def isSpaceChar (c : Char) : Bool :=
  c == ' ' || c == '\t' || c == '\n' || c == '\r' ||
    c == Char.ofNat 11 || c == Char.ofNat 12

/-- Python `str.strip()`: surrounding whitespace removed from both ends. -/
def pyStrip (s : String) : String :=
  String.mk ((s.data.dropWhile isSpaceChar).reverse.dropWhile
    isSpaceChar).reverse

/-- Model of the `smart_add` of `flavor_analysis5.py`: strips all three inputs first
(`ing, comp, desc = ing.strip(), comp.strip(), desc.strip()`), then either
adds the one explicit row, or infers rows through the descriptor, or
rejects; insertions are deduplicated keep-first. -/
def smart_add5 (ing0 comp0 desc0 : String) (store : List FlavorRecord) :
    List FlavorRecord × SmartOutcome :=
  let ing := pyStrip ing0
  let comp := pyStrip comp0
  let desc := pyStrip desc0
  if ing ≠ "" ∧ comp ≠ "" ∧ desc ≠ "" then
    (uniqueFirst (store ++ [⟨ing, comp, desc⟩]), SmartOutcome.added)
  else if ing ≠ "" ∧ desc ≠ "" ∧ comp = "" then
    if matchedComps store desc = [] then (store, SmartOutcome.cannotInfer)
    else (uniqueFirst (store ++ inferredRows store ing desc),
      SmartOutcome.inferred)
  else (store, SmartOutcome.missingFields)

/-- Model of the `smart_add` of `flavor_analysis7.py`: same branches but on the RAW
inputs (no strip), and the insufficient-input branch is a bare `return`
with no message. -/
def smart_add7 (ing comp desc : String) (store : List FlavorRecord) :
    List FlavorRecord × SmartOutcome :=
  if ing ≠ "" ∧ comp ≠ "" ∧ desc ≠ "" then
    (uniqueFirst (store ++ [⟨ing, comp, desc⟩]), SmartOutcome.added)
  else if ing ≠ "" ∧ desc ≠ "" ∧ comp = "" then
    if matchedComps store desc = [] then (store, SmartOutcome.cannotInfer)
    else (uniqueFirst (store ++ inferredRows store ing desc),
      SmartOutcome.inferred)
  else (store, SmartOutcome.silent)

/-- Restriction of the table to the records whose compound is one of the
chosen compounds (the subset built with isin). -/
def chosenSubset (store : List FlavorRecord) (comps : List String) :
    List FlavorRecord :=
  store.filter (fun r => r.compound ∈ comps)

/-- Computation of the distinct chosen compounds the ingredient `s` is
linked to in the chosen subset (rows of the subset matching the
ingredient, compound column, pandas unique). -/
def connectedChosen (store : List FlavorRecord) (comps : List String)
    (s : String) : List String :=
  uniqueFirst (((chosenSubset store comps).filter
    (fun r => r.ingredient = s)).map (fun r => r.compound))

/-- The loop test of the classifier: strong exactly when the ingredient connects
to at least 2 of the chosen compounds (`len(...) >= 2`). -/
def isStrong (store : List FlavorRecord) (comps : List String)
    (s : String) : Bool :=
  2 ≤ (connectedChosen store comps s).length

/-- The `strong_secondary` list built by the classifier loop. -/
def strongSecondary (store : List FlavorRecord) (comps secIngs : List String) :
    List String :=
  secIngs.filter (fun i => isStrong store comps i)

/-- The `normal_secondary` list built by the classifier loop. -/
def normalSecondary (store : List FlavorRecord) (comps secIngs : List String) :
    List String :=
  secIngs.filter (fun i => ! isStrong store comps i)

/-- Computation of the secondary ingredients derived from a selection:
the distinct ingredients of the chosen subset that are not selected
primary ingredients. -/
def secondaryIngs (store : List FlavorRecord) (comps selIngs : List String) :
    List String :=
  (uniqueFirst ((chosenSubset store comps).map (fun r => r.ingredient))).filter
    (fun x => ¬ x ∈ selIngs)

/-- The count the spec describes: the number of distinct compounds in the
chosen set that `s` is linked to by some record of the store. -/
def linkedChosenCount (store : List FlavorRecord) (comps : List String)
    (s : String) : Nat :=
  ((uniqueFirst comps).filter (fun c =>
    store.any (fun r => r.ingredient = s ∧ r.compound = c))).length

/-- C4: if reading the import file fails (`pd.read_excel` raises) or the file
has fewer than 3 columns, `load_data_from_excel` reports an error message and
leaves the Record Store exactly as it was; no partial merge occurs. -/
theorem import_failure_leaves_store_unchanged (store : List FlavorRecord)
    (file : Option RawTable)
    (h : file = none ∨ ∃ t, file = some t ∧ t.ncols < 3) :
    (load_data_from_excel store file).1 = store ∧
      ((load_data_from_excel store file).2 = ImportMsg.importFailed ∨
        (load_data_from_excel store file).2 = ImportMsg.formatError) := by
  rcases h with rfl | ⟨t, rfl, ht⟩
  · exact ⟨rfl, Or.inl rfl⟩
  · simp [load_data_from_excel, if_neg (Nat.not_le.2 ht)]

/-- Witness for C4: a 2-column file is rejected and an empty store stays
empty. -/
theorem import_failure_leaves_store_unchanged_witness :
    (load_data_from_excel [] (some ⟨2, [[some "a"]]⟩)).1 = [] ∧
      ((load_data_from_excel [] (some ⟨2, [[some "a"]]⟩)).2 =
          ImportMsg.importFailed ∨
        (load_data_from_excel [] (some ⟨2, [[some "a"]]⟩)).2 =
          ImportMsg.formatError) :=
  import_failure_leaves_store_unchanged [] (some ⟨2, [[some "a"]]⟩)
    (Or.inr ⟨⟨2, [[some "a"]]⟩, rfl, by decide⟩)

/-- C7: importing the same tabular file twice in succession leaves the
Record Store identical to importing it once. -/
theorem import_twice_eq_import_once (store : List FlavorRecord)
    (file : Option RawTable) :
    (load_data_from_excel (load_data_from_excel store file).1 file).1 =
      (load_data_from_excel store file).1 := by
  cases file with
  | none => rfl
  | some t =>
    by_cases h : 3 ≤ t.ncols
    · simp only [load_data_from_excel, if_pos h]
      have hsub : ∀ x ∈ (t.rows.map normalizeRow).filter
          (fun r => r.ingredient ≠ ""),
          x ∈ uniqueFirst (store ++ (t.rows.map normalizeRow).filter
            (fun r => r.ingredient ≠ "")) := by
        intro x hx
        rw [mem_uniqueFirst]
        exact List.mem_append_right _ hx
      rw [uniqueFirst_append_of_subset _ _ hsub,
        uniqueFirst_eq_self (nodup_uniqueFirst _)]
    · simp only [load_data_from_excel, if_neg h]

/-- C3: every mutating operation (explicit add and inference through
`smart_add` in both variants, import/merge, clear) leaves a table with no
two field-wise identical records, provided the table it started from
satisfied the invariant. -/
theorem mutations_preserve_nodup (store : List FlavorRecord)
    (h : store.Nodup) (ing comp desc : String) (file : Option RawTable) :
    (smart_add5 ing comp desc store).1.Nodup ∧
      (smart_add7 ing comp desc store).1.Nodup ∧
      (load_data_from_excel store file).1.Nodup ∧
      clear_db.Nodup := by
  refine ⟨?_, ?_, ?_, List.nodup_nil⟩
  · simp only [smart_add5]
    split
    · exact nodup_uniqueFirst _
    · split
      · split
        · exact h
        · exact nodup_uniqueFirst _
      · exact h
  · simp only [smart_add7]
    split
    · exact nodup_uniqueFirst _
    · split
      · split
        · exact h
        · exact nodup_uniqueFirst _
      · exact h
  · cases file with
    | none => exact h
    | some t =>
      simp only [load_data_from_excel]
      split
      · exact nodup_uniqueFirst _
      · exact h

/-- Witness for C3 at a concrete duplicate-free store. -/
theorem mutations_preserve_nodup_witness :
    (smart_add5 "a" "b" "c" [⟨"x", "y", "z"⟩]).1.Nodup ∧
      (smart_add7 "a" "b" "c" [⟨"x", "y", "z"⟩]).1.Nodup ∧
      (load_data_from_excel [⟨"x", "y", "z"⟩]
        (some ⟨3, [[some "x", some "y", some "z"]]⟩)).1.Nodup ∧
      clear_db.Nodup :=
  mutations_preserve_nodup [⟨"x", "y", "z"⟩] (by decide) "a" "b" "c"
    (some ⟨3, [[some "x", some "y", some "z"]]⟩)

/-- C10: on a successful import, the only rows filtered out are those whose
ingredient is empty after normalization: a record is in the resulting store
exactly when it was already there, or it is a normalized row of the file
with a non-empty ingredient (rows with empty compound or descriptor are
accepted). -/
theorem import_filters_only_empty_ingredient (store : List FlavorRecord)
    (t : RawTable) (h : 3 ≤ t.ncols) (x : FlavorRecord) :
    x ∈ (load_data_from_excel store (some t)).1 ↔
      x ∈ store ∨ (x ∈ t.rows.map normalizeRow ∧ x.ingredient ≠ "") := by
  simp only [load_data_from_excel, if_pos h]
  rw [mem_uniqueFirst]
  simp only [List.mem_append, List.mem_filter, decide_eq_true_eq]

/-- Witness for C10: a row with a missing compound and descriptor but a
non-empty ingredient is accepted. -/
theorem import_filters_only_empty_ingredient_witness :
    (⟨"a", "", ""⟩ : FlavorRecord) ∈
        (load_data_from_excel []
          (some ⟨3, [[some "a", none, none], [none, some "b", some "c"]]⟩)).1 ↔
      (⟨"a", "", ""⟩ : FlavorRecord) ∈ ([] : List FlavorRecord) ∨
        ((⟨"a", "", ""⟩ : FlavorRecord) ∈
            (⟨3, [[some "a", none, none], [none, some "b", some "c"]]⟩ :
              RawTable).rows.map normalizeRow ∧
          (⟨"a", "", ""⟩ : FlavorRecord).ingredient ≠ "") :=
  import_filters_only_empty_ingredient []
    ⟨3, [[some "a", none, none], [none, some "b", some "c"]]⟩
    (by decide) ⟨"a", "", ""⟩

theorem normalizeCell_serializeField (s : String) (h : s ≠ "nan") :
    normalizeCell (serializeField s) = s := by
  by_cases he : s = ""
  · subst he
    simp [serializeField, normalizeCell]
  · simp [serializeField, he, normalizeCell, h]

theorem parseRow_serializeRecord (r : FlavorRecord) (h1 : r.ingredient ≠ "nan")
    (h2 : r.compound ≠ "nan") (h3 : r.descriptor ≠ "nan") :
    parseRow (serializeRecord r) = r := by
  obtain ⟨i, c, d⟩ := r
  simp only at h1 h2 h3
  simp [parseRow, serializeRecord, normalizeCell_serializeField, h1, h2, h3]

/-- C9 counterexample: `save_db` with an empty table writes nothing at all
(the guard `not st.session_state.data.empty` skips the write), so the
backing file does not receive the serialized empty table. -/
theorem save_empty_counterexample :
    saveDb [] none ≠ some (([] : List FlavorRecord).map serializeRecord) := by
  decide

/-- C9 amended: every invocation of `save_db` on a NON-empty table
serializes the full current table to the backing file; an empty table is
never written and the previous file content is left as-is. -/
theorem save_serializes_nonempty_table (store : List FlavorRecord)
    (file : Option (List (List (Option String)))) (h : store ≠ []) :
    saveDb store file = some (store.map serializeRecord) := by
  simp [saveDb, h]

/-- Witness for amended C9. -/
theorem save_serializes_nonempty_table_witness :
    saveDb [⟨"a", "b", "c"⟩] none =
      some ([(⟨"a", "b", "c"⟩ : FlavorRecord)].map serializeRecord) :=
  save_serializes_nonempty_table [⟨"a", "b", "c"⟩] none (by decide)

/-- C6 counterexample: save-then-load does not reproduce every store.
First conjunct: saving the EMPTY store leaves a stale backing file in
place, so loading returns the stale records, not the empty set.  Second
conjunct: a field holding the literal string "nan" is collapsed to the
empty string by the replace normalization of the loader. -/
theorem save_load_roundtrip_counterexample :
    loadDb (saveDb [] (some [[some "a", some "b", some "c"]])) ≠
        ([] : List FlavorRecord) ∧
      loadDb (saveDb [⟨"nan", "b", "c"⟩] none) ≠ [⟨"nan", "b", "c"⟩] := by
  decide

/-- C6 amended: for every NON-empty store none of whose field values is the
literal string "nan" (a value the normalization of the loader collapses),
saving and then loading the backing file reproduces exactly the same
Flavor Records. -/
theorem save_load_roundtrip (store : List FlavorRecord)
    (file : Option (List (List (Option String)))) (hne : store ≠ [])
    (hnan : ∀ r ∈ store, r.ingredient ≠ "nan" ∧ r.compound ≠ "nan" ∧
      r.descriptor ≠ "nan") :
    loadDb (saveDb store file) = store := by
  simp only [saveDb, if_neg hne, loadDb]
  have h : ∀ r ∈ store, parseRow (serializeRecord r) = r := fun r hr =>
    parseRow_serializeRecord r (hnan r hr).1 (hnan r hr).2.1 (hnan r hr).2.2
  rw [List.map_map]
  calc store.map (parseRow ∘ serializeRecord) = store.map id :=
        List.map_congr_left fun r hr => h r hr
    _ = store := List.map_id store

/-- Witness for amended C6. -/
theorem save_load_roundtrip_witness :
    loadDb (saveDb [⟨"豌豆", "Comp1", ""⟩] none) =
      [(⟨"豌豆", "Comp1", ""⟩ : FlavorRecord)] :=
  save_load_roundtrip [⟨"豌豆", "Comp1", ""⟩] none (by decide) (by decide)

/-- C5 counterexample: the `smart_add` of `flavor_analysis7.py` on insufficient
input (all fields empty) performs no insertion but reports NOTHING — its
insufficient-input branch is a bare `return`, not a warning. -/
theorem smart_add7_silent_counterexample :
    (smart_add7 "" "" "" []).1 = [] ∧
      (smart_add7 "" "" "" []).2 = SmartOutcome.silent ∧
      SmartOutcome.silent ≠ SmartOutcome.missingFields ∧
      SmartOutcome.silent ≠ SmartOutcome.cannotInfer := by
  decide

/-- C5 amended: `smart_add` performs no insertion and leaves the store
unchanged on insufficient input and on a descriptor-only lookup that
matches nothing, in both variants; `flavor_analysis5.py` reports a failure
message in both cases, while `flavor_analysis7.py` reports one only in the
cannot-infer case and is silent on insufficient input. -/
theorem smart_add_rejects_without_insertion (ing comp desc : String)
    (store : List FlavorRecord) :
    (¬ ((pyStrip ing ≠ "" ∧ pyStrip comp ≠ "" ∧ pyStrip desc ≠ "") ∨
        (pyStrip ing ≠ "" ∧ pyStrip desc ≠ "" ∧ pyStrip comp = "")) →
      smart_add5 ing comp desc store = (store, SmartOutcome.missingFields)) ∧
    ((pyStrip ing ≠ "" ∧ pyStrip desc ≠ "" ∧ pyStrip comp = "") →
      matchedComps store (pyStrip desc) = [] →
      smart_add5 ing comp desc store = (store, SmartOutcome.cannotInfer)) ∧
    (¬ ((ing ≠ "" ∧ comp ≠ "" ∧ desc ≠ "") ∨
        (ing ≠ "" ∧ desc ≠ "" ∧ comp = "")) →
      smart_add7 ing comp desc store = (store, SmartOutcome.silent)) ∧
    ((ing ≠ "" ∧ desc ≠ "" ∧ comp = "") → matchedComps store desc = [] →
      smart_add7 ing comp desc store = (store, SmartOutcome.cannotInfer)) := by
  refine ⟨?_, ?_, ?_, ?_⟩
  · intro h
    have hA := fun a => h (Or.inl a)
    have hB := fun b => h (Or.inr b)
    simp only [smart_add5]
    rw [if_neg hA, if_neg hB]
  · intro hB hm
    have hA : ¬ (pyStrip ing ≠ "" ∧ pyStrip comp ≠ "" ∧ pyStrip desc ≠ "") :=
      fun hA => hA.2.1 hB.2.2
    simp only [smart_add5]
    rw [if_neg hA, if_pos hB, if_pos hm]
  · intro h
    have hA := fun a => h (Or.inl a)
    have hB := fun b => h (Or.inr b)
    simp only [smart_add7]
    rw [if_neg hA, if_neg hB]
  · intro hB hm
    have hA : ¬ (ing ≠ "" ∧ comp ≠ "" ∧ desc ≠ "") :=
      fun hA => hA.2.1 hB.2.2
    simp only [smart_add7]
    rw [if_neg hA, if_pos hB, if_pos hm]

/-- Witness for amended C5, discharging each rejection case at a concrete
input. -/
theorem smart_add_rejects_without_insertion_witness :
    smart_add5 "x" "" "" [] = ([], SmartOutcome.missingFields) ∧
      smart_add5 "x" "" "d" [] = ([], SmartOutcome.cannotInfer) ∧
      smart_add7 "" "" "" [] = ([], SmartOutcome.silent) ∧
      smart_add7 "x" "" "d" [] = ([], SmartOutcome.cannotInfer) :=
  ⟨(smart_add_rejects_without_insertion "x" "" "" []).1 (by decide),
    (smart_add_rejects_without_insertion "x" "" "d" []).2.1 (by decide)
      (by decide),
    (smart_add_rejects_without_insertion "" "" "" []).2.2.1 (by decide),
    (smart_add_rejects_without_insertion "x" "" "d" []).2.2.2 (by decide)
      (by decide)⟩

/-- C8 counterexample: the `smart_add` of `flavor_analysis7.py` does NOT strip
its inputs: the record stored for the ingredient " z " keeps the
surrounding whitespace. -/
theorem smart_add7_no_strip_counterexample :
    (smart_add7 " z " "c" "d" []).1 = [⟨" z ", "c", "d"⟩] ∧
      pyStrip " z " = "z" ∧ (" z " : String) ≠ "z" := by
  decide

/-- C8 amended: the `smart_add` of `flavor_analysis5.py` strips all three input
fields before any emptiness test, lookup or insertion — its behavior
depends only on the stripped values, and the record stored in the explicit
add path carries the stripped values; `flavor_analysis7.py` uses the raw
values unstripped. -/
theorem smart_add5_strips_inputs (ing ing' comp comp' desc desc' : String)
    (store : List FlavorRecord) (h1 : pyStrip ing = pyStrip ing')
    (h2 : pyStrip comp = pyStrip comp') (h3 : pyStrip desc = pyStrip desc') :
    smart_add5 ing comp desc store = smart_add5 ing' comp' desc' store ∧
      ((pyStrip ing ≠ "" ∧ pyStrip comp ≠ "" ∧ pyStrip desc ≠ "") →
        (smart_add5 ing comp desc store).1 =
          uniqueFirst (store ++
            [⟨pyStrip ing, pyStrip comp, pyStrip desc⟩])) := by
  constructor
  · simp only [smart_add5, h1, h2, h3]
  · intro h
    simp only [smart_add5, if_pos h]

/-- Witness for amended C8: the padded and unpadded spellings of z are
indistinguishable to the `smart_add` of `flavor_analysis5.py`, and the
stored record is stripped. -/
theorem smart_add5_strips_inputs_witness :
    smart_add5 " z " " c " "d" [] = smart_add5 "z" "c" "d" [] ∧
      ((pyStrip " z " ≠ "" ∧ pyStrip " c " ≠ "" ∧ pyStrip "d" ≠ "") →
        (smart_add5 " z " " c " "d" []).1 =
          uniqueFirst ([] ++ [⟨pyStrip " z ", pyStrip " c ", pyStrip "d"⟩])) :=
  smart_add5_strips_inputs " z " "z" " c " "c" "d" "d" [] (by decide)
    (by decide) (by decide)

theorem connectedChosen_length_eq (store : List FlavorRecord)
    (comps : List String) (s : String) :
    (connectedChosen store comps s).length = linkedChosenCount store comps s := by
  unfold connectedChosen linkedChosenCount
  apply List.Perm.length_eq
  rw [List.perm_ext_iff_of_nodup (nodup_uniqueFirst _)
    ((nodup_uniqueFirst comps).filter _)]
  intro c
  simp only [chosenSubset, mem_uniqueFirst, List.mem_map,
    List.mem_filter, decide_eq_true_eq, List.any_eq_true]
  constructor
  · rintro ⟨r, ⟨⟨hr, hcomps⟩, hing⟩, rfl⟩
    exact ⟨hcomps, r, hr, hing, rfl⟩
  · rintro ⟨hc, r, hr, hing, hrc⟩
    exact ⟨r, ⟨⟨hr, hrc ▸ hc⟩, hing⟩, hrc⟩

/-- C1: an ingredient of the secondary list is put on the `strong` list
exactly when the number of distinct chosen compounds it is linked to
(over the records whose compound is in the chosen set) is at least 2, and
is put on the `normal` (weak) list when that count is exactly 1. -/
theorem classifier_strong_iff_two_linked (store : List FlavorRecord)
    (selIngs comps : List String) (s : String)
    (hs : s ∈ secondaryIngs store comps selIngs) :
    (s ∈ strongSecondary store comps (secondaryIngs store comps selIngs) ↔
      2 ≤ linkedChosenCount store comps s) ∧
    (linkedChosenCount store comps s = 1 →
      s ∈ normalSecondary store comps (secondaryIngs store comps selIngs)) := by
  have hlen := connectedChosen_length_eq store comps s
  constructor
  · simp only [strongSecondary, List.mem_filter, hs, true_and, isStrong,
      decide_eq_true_eq, hlen]
  · intro h1
    have hlen1 : (connectedChosen store comps s).length = 1 := by
      rw [hlen, h1]
    simp only [normalSecondary, List.mem_filter, hs, true_and, isStrong,
      hlen1]
    simp

/-- Witness for C1 at the example of the spec: records
{(a,C1),(a,C2),(b,C1)}, primary ingredient a, chosen compounds {C1,C2};
the secondary ingredient b is linked to exactly one chosen compound. -/
theorem classifier_strong_iff_two_linked_witness :
    ("b" ∈ strongSecondary
        [⟨"a", "C1", "d"⟩, ⟨"a", "C2", "d"⟩, ⟨"b", "C1", "d"⟩]
        ["C1", "C2"]
        (secondaryIngs [⟨"a", "C1", "d"⟩, ⟨"a", "C2", "d"⟩, ⟨"b", "C1", "d"⟩]
          ["C1", "C2"] ["a"]) ↔
      2 ≤ linkedChosenCount
        [⟨"a", "C1", "d"⟩, ⟨"a", "C2", "d"⟩, ⟨"b", "C1", "d"⟩]
        ["C1", "C2"] "b") ∧
    (linkedChosenCount [⟨"a", "C1", "d"⟩, ⟨"a", "C2", "d"⟩, ⟨"b", "C1", "d"⟩]
        ["C1", "C2"] "b" = 1 →
      "b" ∈ normalSecondary
        [⟨"a", "C1", "d"⟩, ⟨"a", "C2", "d"⟩, ⟨"b", "C1", "d"⟩]
        ["C1", "C2"]
        (secondaryIngs [⟨"a", "C1", "d"⟩, ⟨"a", "C2", "d"⟩, ⟨"b", "C1", "d"⟩]
          ["C1", "C2"] ["a"])) :=
  classifier_strong_iff_two_linked
    [⟨"a", "C1", "d"⟩, ⟨"a", "C2", "d"⟩, ⟨"b", "C1", "d"⟩]
    ["a"] ["C1", "C2"] "b" (by decide)

theorem mem_inferredRows (store : List FlavorRecord) (ing desc : String)
    (t : FlavorRecord) :
    t ∈ inferredRows store ing desc ↔
      ∃ m d, (∃ r ∈ store, r.compound = m ∧ r.descriptor = desc) ∧
        (∃ r' ∈ store, r'.compound = m ∧ r'.descriptor = d) ∧
        t = ⟨ing, m, d⟩ := by
  simp only [inferredRows, List.mem_flatMap, List.mem_map, matchedComps,
    descsOf, mem_uniqueFirst, List.mem_filter, decide_eq_true_eq]
  constructor
  · rintro ⟨m, ⟨r, ⟨hr, hrd⟩, hrc⟩, d, ⟨r', ⟨hr', hrc'⟩, hrd'⟩, rfl⟩
    exact ⟨m, d, ⟨r, hr, hrc, hrd⟩, ⟨r', hr', hrc', hrd'⟩, rfl⟩
  · rintro ⟨m, d, ⟨r, hr, hrc, hrd⟩, ⟨r', hr', hrc', hrd'⟩, rfl⟩
    exact ⟨m, ⟨r, ⟨hr, hrd⟩, hrc⟩, d, ⟨r', ⟨hr', hrc'⟩, hrd'⟩, rfl⟩

/-- C2: `smart_add` with a non-empty ingredient, empty compound and a
descriptor matching at least one compound inserts exactly the records
(ing, m, r) for every distinct compound `m` recorded anywhere against that
descriptor and every distinct descriptor `r` recorded anywhere against
`m`, deduplicated against the existing records — both variants agree
(the v5 inputs here carry no surrounding whitespace). -/
theorem smart_add_inference_expansion (ing comp desc : String)
    (store : List FlavorRecord) (t : FlavorRecord)
    (hing : ing ≠ "") (hcomp : comp = "") (hdesc : desc ≠ "")
    (hsi : pyStrip ing = ing) (hsd : pyStrip desc = desc)
    (hmatch : matchedComps store desc ≠ []) :
    (smart_add5 ing comp desc store).1 = (smart_add7 ing comp desc store).1 ∧
      (t ∈ (smart_add7 ing comp desc store).1 ↔ t ∈ store ∨
        ∃ m d, (∃ r ∈ store, r.compound = m ∧ r.descriptor = desc) ∧
          (∃ r' ∈ store, r'.compound = m ∧ r'.descriptor = d) ∧
          t = ⟨ing, m, d⟩) ∧
      (smart_add7 ing comp desc store).1.Nodup := by
  have hscomp : pyStrip comp = "" := by
    rw [hcomp]
    decide
  have h7 : smart_add7 ing comp desc store =
      (uniqueFirst (store ++ inferredRows store ing desc),
        SmartOutcome.inferred) := by
    have hA : ¬ (ing ≠ "" ∧ comp ≠ "" ∧ desc ≠ "") := fun h => h.2.1 hcomp
    simp only [smart_add7]
    rw [if_neg hA, if_pos ⟨hing, hdesc, hcomp⟩, if_neg hmatch]
  have h5 : smart_add5 ing comp desc store =
      (uniqueFirst (store ++ inferredRows store ing desc),
        SmartOutcome.inferred) := by
    have hA : ¬ (pyStrip ing ≠ "" ∧ pyStrip comp ≠ "" ∧
        pyStrip desc ≠ "") := by
      rw [hsi, hscomp, hsd]
      exact fun h => h.2.1 rfl
    have hB : pyStrip ing ≠ "" ∧ pyStrip desc ≠ "" ∧ pyStrip comp = "" := by
      rw [hsi, hscomp, hsd]
      exact ⟨hing, hdesc, rfl⟩
    simp only [smart_add5]
    rw [if_neg hA, if_pos hB, hsd, hsi, if_neg hmatch]
  refine ⟨by rw [h5, h7], ?_, by rw [h7]; exact nodup_uniqueFirst _⟩
  rw [h7]
  show t ∈ uniqueFirst (store ++ inferredRows store ing desc) ↔ _
  rw [mem_uniqueFirst, List.mem_append, mem_inferredRows]

/-- Witness for C2 at the inference-expansion example of the spec: the store
{(x,C1,d1),(x,C1,d2),(y,C2,d1)} and the call smart_add(z, "", d1); the
record (z,C2,d1) — a descriptor profile pulled in through C2, not just
through the rows of the seed descriptor itself — satisfies the
characterization. -/
theorem smart_add_inference_expansion_witness :
    (smart_add5 "z" "" "d1"
        [⟨"x", "C1", "d1"⟩, ⟨"x", "C1", "d2"⟩, ⟨"y", "C2", "d1"⟩]).1 =
      (smart_add7 "z" "" "d1"
        [⟨"x", "C1", "d1"⟩, ⟨"x", "C1", "d2"⟩, ⟨"y", "C2", "d1"⟩]).1 ∧
      ((⟨"z", "C2", "d1"⟩ : FlavorRecord) ∈ (smart_add7 "z" "" "d1"
          [⟨"x", "C1", "d1"⟩, ⟨"x", "C1", "d2"⟩, ⟨"y", "C2", "d1"⟩]).1 ↔
        (⟨"z", "C2", "d1"⟩ : FlavorRecord) ∈
            [(⟨"x", "C1", "d1"⟩ : FlavorRecord), ⟨"x", "C1", "d2"⟩,
              ⟨"y", "C2", "d1"⟩] ∨
          ∃ m d, (∃ r ∈ [(⟨"x", "C1", "d1"⟩ : FlavorRecord), ⟨"x", "C1", "d2"⟩,
              ⟨"y", "C2", "d1"⟩], r.compound = m ∧ r.descriptor = "d1") ∧
            (∃ r' ∈ [(⟨"x", "C1", "d1"⟩ : FlavorRecord), ⟨"x", "C1", "d2"⟩,
              ⟨"y", "C2", "d1"⟩], r'.compound = m ∧ r'.descriptor = d) ∧
            (⟨"z", "C2", "d1"⟩ : FlavorRecord) = ⟨"z", m, d⟩) ∧
      (smart_add7 "z" "" "d1"
        [⟨"x", "C1", "d1"⟩, ⟨"x", "C1", "d2"⟩, ⟨"y", "C2", "d1"⟩]).1.Nodup :=
  smart_add_inference_expansion "z" "" "d1"
    [⟨"x", "C1", "d1"⟩, ⟨"x", "C1", "d2"⟩, ⟨"y", "C2", "d1"⟩]
    ⟨"z", "C2", "d1"⟩ (by decide) rfl (by decide) (by decide) (by decide)
    (by decide)

end FlavorApp
